import Mathlib

/-!
Verification of the PDF map-reduce summarization pipeline (`pdf-summarizer.py`).

The pipeline is shallowly embedded over `List Char` text:
  * `detect_section_boundaries` models lines 51-73.  The five regular
    expressions are abstracted by the list `matchOffsets` of start offsets the
    regex engine reports for the text; the function itself performs the
    `boundaries = sorted(set([0] + match starts))` computation of the source.
  * `splitOnBlank` models the Python string split on the blank-line
    separator (leftmost, non-overlapping occurrences of the two-character
    separator).
  * `pack` models the greedy paragraph packing loops (lines 96-106 with
    `guard = true`, lines 113-125 with `guard = false`; the two loops differ
    only in that the first one guards `final_chunks.append(current_chunk)`
    with `if current_chunk:`).
  * `create_semantic_chunks` models lines 75-127, `summarize_chunk` lines
    129-155, `summarize_summaries` lines 157-195 and `summarize_pdf` lines
    197-244.  The external LLM capability is an injected function returning
    `Except` (an exception is an `.error`); the thread pool of the map stage
    is abstracted by `completionOrder`, the order (a permutation of the chunk
    indices) in which `concurrent.futures.as_completed` yields the futures.
-/

namespace PDFSum

/-- The two-character blank-line separator `"\n\n"` used by the source. -/
def nlnl : List Char := ['\n', '\n']

/-- Prepend a character to the first part of a split result. -/
def consHead (c : Char) : List (List Char) → List (List Char)
  | [] => [[c]]
  | h :: t => (c :: h) :: t

/-- Python `text.split` on the two-character separator: split on leftmost,
non-overlapping occurrences.  Total and never empty. -/
def splitOnBlank : List Char → List (List Char)
  | [] => [[]]
  | [c] => [[c]]
  | c :: c' :: rest =>
    if c = '\n' ∧ c' = '\n' then [] :: splitOnBlank rest
    else consHead c (splitOnBlank (c' :: rest))

/-- Python slice `text[a:b]` on a list of characters (indices clamp). -/
def pyslice (a b : Nat) (l : List Char) : List Char := (l.take b).drop a

/-- The summarizer object: `PDFSummarizer.__init__` (lines 9-22) stores the
LLM wrapper, `chunk_size`, `overlap` and `max_workers`. -/
structure PDFSummarizer where
  llm_api : List Char → Except (List Char) (List Char)
  chunk_size : Nat := 2000
  overlap : Nat := 200
  max_workers : Nat := 4

/-- Insert a value into a strictly increasing list, dropping it when already
present (the building block of `sorted(set(...))`). -/
def insertSorted (x : Nat) : List Nat → List Nat
  | [] => [x]
  | y :: ys =>
    if x < y then x :: y :: ys
    else if x = y then y :: ys
    else y :: insertSorted x ys

/-- `sorted(set(l))`: the strictly increasing enumeration of the elements. -/
def sortedDedup (l : List Nat) : List Nat := l.foldr insertSorted []

/-- `detect_section_boundaries` (lines 51-73): start offsets reported by the
header regexes (`matchOffsets`, abstracted), plus offset 0, sorted and
deduplicated via `sorted(set(...))`. -/
def detect_section_boundaries (matchOffsets : List Nat) : List Nat :=
  sortedDedup (0 :: matchOffsets)

/-- The chunks spanned between consecutive boundaries, the last chunk running
to the end of the text (lines 84-89). -/
def boundaryChunks (text : List Char) : List Nat → List (List Char)
  | [] => []
  | [b] => [text.drop b]
  | b :: b' :: rest => pyslice b b' text :: boundaryChunks text (b' :: rest)

/-- The greedy paragraph-packing loop.  With `guard = true` this is the
re-split loop of the boundary path (lines 96-106: an empty `current_chunk` is
not appended); with `guard = false` it is the fallback loop (lines 113-125:
`current_chunk` is appended unconditionally, even when empty).  Both end with
`if current_chunk: append(current_chunk)`. -/
def pack (guard : Bool) (cs : Nat) : List (List Char) → List Char → List (List Char)
  | [], cur => if cur = [] then [] else [cur]
  | p :: ps, cur =>
    if cur.length + p.length < cs then
      pack guard cs ps (cur ++ p ++ nlnl)
    else if guard = true ∧ cur = [] then
      pack guard cs ps (p ++ nlnl)
    else
      cur :: pack guard cs ps (p ++ nlnl)

/-- Re-splitting of a single boundary-path chunk (lines 93-108): a chunk
longer than `chunk_size * 1.5` (encoded integrally: `2·len > 3·chunk_size`)
is split into paragraphs and greedily repacked, otherwise kept whole. -/
def resplitChunk (cs : Nat) (chunk : List Char) : List (List Char) :=
  if 3 * cs < 2 * chunk.length then pack true cs (splitOnBlank chunk) [] else [chunk]

/-- `create_semantic_chunks` (lines 75-127): the boundary path is taken when
the boundary count is above 1 and below 30, otherwise the size-based fallback
packs the paragraphs of the whole text. -/
def create_semantic_chunks (s : PDFSummarizer) (matchOffsets : List Nat)
    (text : List Char) : List (List Char) :=
  let boundaries := detect_section_boundaries matchOffsets
  if 1 < boundaries.length ∧ boundaries.length < 30 then
    ((boundaryChunks text boundaries).map (resplitChunk s.chunk_size)).flatten
  else
    pack false s.chunk_size (splitOnBlank text) []

/-- Document metadata as assembled by `extract_text_and_metadata`
(lines 30-38); every key the prompts read is present. -/
structure Metadata where
  title : List Char
  author : List Char
  subject : List Char
  keywords : List Char
  creation_date : List Char
  modification_date : List Char
  page_count : Nat
deriving DecidableEq

/-- Decimal rendering of a number, as Python string interpolation does. -/
def natStr (n : Nat) : List Char := (Nat.repr n).data

/-- The per-chunk prompt of `summarize_chunk` (lines 132-151). -/
def chunk_prompt (chunk : List Char) (meta : Metadata) (is_financial : Bool) : List Char :=
  if is_financial then
    ("Summarize the following section of a financial document. \nFocus on preserving:\n1. Important financial terms, metrics, and numbers\n2. Policy statements and legal obligations\n3. Risk factors and warnings\n4. Key dates, timelines, and deadlines\n\nDocument Title: ").data
      ++ meta.title
      ++ ("\nDocument Section:\n").data
      ++ chunk
      ++ ("\n\nProvide a concise yet comprehensive summary that maintains all critical financial information and regulatory details:").data
  else
    ("Summarize the following section of a document.\nDocument Title: ").data
      ++ meta.title
      ++ ("\nDocument Section:\n").data
      ++ chunk
      ++ ("\n\nProvide a concise yet comprehensive summary:").data

/-- `summarize_chunk` (lines 129-155): build the prompt and call the LLM API
exactly once.  Exceptions of the capability surface as `.error`. -/
def summarize_chunk (s : PDFSummarizer) (chunk : List Char) (meta : Metadata)
    (is_financial : Bool) : Except (List Char) (List Char) :=
  s.llm_api (chunk_prompt chunk meta is_financial)

/-- The `"\n\n".join("Section i+1 Summary:\n" + summary)` block of
`summarize_summaries` (line 159). -/
def section_block (summaries : List (List Char)) : List Char :=
  List.intercalate nlnl
    (summaries.enum.map (fun p =>
      ("Section ").data ++ natStr (p.1 + 1) ++ (" Summary:\n").data ++ p.2))

/-- The reduce-stage prompt of `summarize_summaries` (lines 161-191). -/
def reduce_prompt (summaries : List (List Char)) (meta : Metadata)
    (is_financial : Bool) : List Char :=
  if is_financial then
    ("You are creating a final comprehensive summary of a financial document.\nBelow are summaries of each section of the document.\n\nDocument Title: ").data
      ++ meta.title
      ++ ("\nDocument Author: ").data ++ meta.author
      ++ ("\nDocument Keywords: ").data ++ meta.keywords
      ++ ("\nTotal Pages: ").data ++ natStr meta.page_count
      ++ ("\n\n").data ++ section_block summaries
      ++ ("\n\nCreate a well-structured final summary of the entire document that:\n1. Preserves all critical financial information, terms, and metrics\n2. Maintains all policy statements and compliance requirements\n3. Highlights key risk factors and warnings\n4. Organizes information logically by sections\n5. Includes important dates, deadlines, and timelines\n\nThe summary should be comprehensive enough to serve as a reliable reference to the original document:").data
  else
    ("You are creating a final comprehensive summary of a document.\nBelow are summaries of each section of the document.\n\nDocument Title: ").data
      ++ meta.title
      ++ ("\nDocument Author: ").data ++ meta.author
      ++ ("\nDocument Keywords: ").data ++ meta.keywords
      ++ ("\nTotal Pages: ").data ++ natStr meta.page_count
      ++ ("\n\n").data ++ section_block summaries
      ++ ("\n\nCreate a well-structured final summary of the entire document that captures all the key information and maintains the logical flow:").data

/-- `summarize_summaries` (lines 157-195): one LLM call over the combined
section summaries; nothing here catches a failure of the call. -/
def summarize_summaries (s : PDFSummarizer) (summaries : List (List Char))
    (meta : Metadata) (is_financial : Bool) : Except (List Char) (List Char) :=
  s.llm_api (reduce_prompt summaries meta is_financial)

/-- The `f"[Error summarizing this section: {e}]"` placeholder (line 229). -/
def error_placeholder (e : List Char) : List Char :=
  ("[Error summarizing this section: ").data ++ e ++ ("]").data

/-- The body of the `as_completed` loop (lines 222-229): a successful future
yields its summary, a raised exception is caught and becomes the error
placeholder for that index. -/
def chunk_outcome (s : PDFSummarizer) (meta : Metadata) (is_financial : Bool)
    (chunk : List Char) : List Char :=
  match summarize_chunk s chunk meta is_financial with
  | .ok r => r
  | .error e => error_placeholder e

/-- The map stage (lines 214-233): each chunk index is submitted, results are
collected in completion order (`completionOrder`, a permutation of the chunk
indices) tagged with their original index, then sorted by index
(`chunk_summaries.sort(key=lambda x: x[0])`; each index occurs exactly once,
so the stable sort of the source agrees with sorting on the first component)
and the summaries extracted. -/
def map_stage (s : PDFSummarizer) (meta : Metadata) (is_financial : Bool)
    (chunks : List (List Char)) (completionOrder : List Nat) : List (List Char) :=
  (List.insertionSort (fun a b => a.1 ≤ b.1)
      (completionOrder.map (fun i => (i, chunk_outcome s meta is_financial (chunks.getD i []))))).map
    Prod.snd

/-- The record returned by `summarize_pdf` (lines 239-244). -/
structure SummaryResult where
  metadata : Metadata
  chunk_count : Nat
  section_summaries : List (List Char)
  final_summary : List Char
deriving DecidableEq

/-- `summarize_pdf` (lines 197-244) on already-extracted text and metadata
(extraction is an external collaborator): chunk, run the map stage, then the
reduce stage.  A reduce-stage failure is not caught and propagates. -/
def summarize_pdf (s : PDFSummarizer) (text : List Char) (meta : Metadata)
    (is_financial : Bool) (matchOffsets completionOrder : List Nat) :
    Except (List Char) SummaryResult :=
  (summarize_summaries s
      (map_stage s meta is_financial (create_semantic_chunks s matchOffsets text)
        completionOrder) meta is_financial).map
    (fun fin =>
      ⟨meta, (create_semantic_chunks s matchOffsets text).length,
        map_stage s meta is_financial (create_semantic_chunks s matchOffsets text)
          completionOrder, fin⟩)

/-! ### Structure of the split and pack helpers -/

theorem splitOnBlank_ne_nil : ∀ l : List Char, splitOnBlank l ≠ []
  | [] => by simp [splitOnBlank]
  | [c] => by simp [splitOnBlank]
  | c :: c' :: rest => by
    rw [splitOnBlank]
    by_cases h : c = '\n' ∧ c' = '\n'
    · rw [if_pos h]
      simp
    · rw [if_neg h]
      cases hs : splitOnBlank (c' :: rest) <;> simp [consHead]

theorem flatten_map_sep_consHead (c : Char) (L : List (List Char)) (hL : L ≠ []) :
    ((consHead c L).map (· ++ nlnl)).flatten = c :: (L.map (· ++ nlnl)).flatten := by
  cases L with
  | nil => exact absurd rfl hL
  | cons h t => simp [consHead]

theorem flatten_map_sep : ∀ l : List Char,
    ((splitOnBlank l).map (· ++ nlnl)).flatten = l ++ nlnl
  | [] => by simp [splitOnBlank, nlnl]
  | [c] => by simp [splitOnBlank, nlnl]
  | c :: c' :: rest => by
    rw [splitOnBlank]
    by_cases h : c = '\n' ∧ c' = '\n'
    · rw [if_pos h]
      simp only [List.map_cons, List.flatten_cons, flatten_map_sep rest]
      rcases h with ⟨rfl, rfl⟩
      simp [nlnl]
    · rw [if_neg h,
        flatten_map_sep_consHead c _ (splitOnBlank_ne_nil (c' :: rest)),
        flatten_map_sep (c' :: rest)]
      simp

theorem flatten_pack (g : Bool) (cs : Nat) :
    ∀ (paras : List (List Char)) (cur : List Char),
    (pack g cs paras cur).flatten = cur ++ (paras.map (· ++ nlnl)).flatten
  | [], cur => by
    by_cases h : cur = [] <;> simp [pack, h]
  | p :: ps, cur => by
    rw [pack]
    by_cases h1 : cur.length + p.length < cs
    · rw [if_pos h1, flatten_pack g cs ps]
      simp [List.append_assoc]
    · rw [if_neg h1]
      by_cases h2 : g = true ∧ cur = []
      · rw [if_pos h2, flatten_pack g cs ps, h2.2]
        simp
      · rw [if_neg h2]
        simp only [List.flatten_cons, flatten_pack g cs ps]
        simp [List.append_assoc]

theorem flatten_resplitChunk_of_big {cs : Nat} {c : List Char}
    (h : 3 * cs < 2 * c.length) : (resplitChunk cs c).flatten = c ++ nlnl := by
  rw [resplitChunk, if_pos h, flatten_pack, flatten_map_sep]
  simp

theorem flatten_resplitChunk (cs : Nat) (c : List Char) :
    (resplitChunk cs c).flatten = c ∨ (resplitChunk cs c).flatten = c ++ nlnl := by
  by_cases h : 3 * cs < 2 * c.length
  · exact Or.inr (flatten_resplitChunk_of_big h)
  · rw [resplitChunk, if_neg h]
    simp

/-! ### Slices between sorted boundaries cover the text -/

theorem pyslice_append_drop {a b : Nat} (h : a ≤ b) (l : List Char) :
    pyslice a b l ++ l.drop b = l.drop a := by
  by_cases hl : l.length ≤ a
  · have h1 : pyslice a b l = [] := by
      apply List.drop_eq_nil_of_le
      simp only [List.length_take]
      omega
    have h2 : l.drop b = [] := List.drop_eq_nil_of_le (by omega)
    have h3 : l.drop a = [] := List.drop_eq_nil_of_le hl
    rw [h1, h2, h3]
    rfl
  · conv_rhs => rw [← List.take_append_drop b l]
    rw [List.drop_append_eq_append_drop]
    have : a - (l.take b).length = 0 := by
      simp only [List.length_take]
      omega
    rw [this, List.drop_zero]
    rfl

theorem flatten_boundaryChunks (text : List Char) :
    ∀ (bs : List Nat) (b : Nat), List.Sorted (· ≤ ·) (b :: bs) →
    (boundaryChunks text (b :: bs)).flatten = text.drop b
  | [], b, _ => by simp [boundaryChunks]
  | b' :: rest, b, hs => by
    rw [List.sorted_cons] at hs
    rw [boundaryChunks, List.flatten_cons,
      flatten_boundaryChunks text rest b' hs.2,
      pyslice_append_drop (hs.1 b' (by simp)) text]

theorem boundaryChunks_length (text : List Char) :
    ∀ bs : List Nat, bs ≠ [] → (boundaryChunks text bs).length = bs.length
  | [], h => absurd rfl h
  | [_], _ => by simp [boundaryChunks]
  | _ :: b' :: rest, _ => by
    rw [boundaryChunks, List.length_cons,
      boundaryChunks_length text (b' :: rest) (by simp)]
    rfl

theorem boundaryChunks_getD (text : List Char) :
    ∀ (bs : List Nat) (i : Nat), i + 1 < bs.length →
    (boundaryChunks text bs).getD i [] =
      pyslice (bs.getD i 0) (bs.getD (i + 1) 0) text
  | [], i, h => by simp at h
  | [_], i, h => by simp at h
  | b :: b' :: rest, 0, _ => by simp [boundaryChunks]
  | b :: b' :: rest, i + 1, h => by
    rw [boundaryChunks]
    have := boundaryChunks_getD text (b' :: rest) i (by simpa using h)
    simpa using this

theorem boundaryChunks_getD_last (text : List Char) :
    ∀ bs : List Nat, bs ≠ [] →
    (boundaryChunks text bs).getD (bs.length - 1) [] =
      text.drop (bs.getD (bs.length - 1) 0)
  | [], h => absurd rfl h
  | [b], _ => by simp [boundaryChunks]
  | b :: b' :: rest, _ => by
    rw [boundaryChunks]
    have := boundaryChunks_getD_last text (b' :: rest) (by simp)
    have hlen : (b' :: rest).length - 1 + 1 = (b :: b' :: rest).length - 1 := by
      simp
    simpa using this

/-! ### The sorted deduplicated boundary list -/

theorem mem_insertSorted (x a : Nat) :
    ∀ l : List Nat, (a ∈ insertSorted x l ↔ a = x ∨ a ∈ l)
  | [] => by simp [insertSorted]
  | y :: ys => by
    rw [insertSorted]
    by_cases h1 : x < y
    · rw [if_pos h1]
      simp [or_comm, or_assoc, or_left_comm]
    · rw [if_neg h1]
      by_cases h2 : x = y
      · rw [if_pos h2]
        subst h2
        simp only [List.mem_cons]
        constructor
        · exact fun h => Or.inr h
        · rintro (rfl | h)
          · simp
          · exact h
      · rw [if_neg h2]
        simp only [List.mem_cons, mem_insertSorted x a ys]
        constructor
        · rintro (rfl | h) <;> tauto
        · rintro (rfl | rfl | h) <;> tauto

theorem sorted_insertSorted (x : Nat) :
    ∀ l : List Nat, List.Sorted (· < ·) l → List.Sorted (· < ·) (insertSorted x l)
  | [], _ => by simp [insertSorted]
  | y :: ys, hs => by
    rw [List.sorted_cons] at hs
    rw [insertSorted]
    by_cases h1 : x < y
    · rw [if_pos h1, List.sorted_cons]
      refine ⟨?_, List.sorted_cons.2 hs⟩
      intro b hb
      rcases List.mem_cons.1 hb with rfl | hb
      · exact h1
      · exact Nat.lt_trans h1 (hs.1 b hb)
    · rw [if_neg h1]
      by_cases h2 : x = y
      · rw [if_pos h2]
        exact List.sorted_cons.2 hs
      · rw [if_neg h2, List.sorted_cons]
        refine ⟨?_, sorted_insertSorted x ys hs.2⟩
        intro b hb
        rcases (mem_insertSorted x b ys).1 hb with rfl | hb
        · omega
        · exact hs.1 b hb

theorem sorted_sortedDedup (l : List Nat) : List.Sorted (· < ·) (sortedDedup l) := by
  induction l with
  | nil => simp [sortedDedup]
  | cons a l ih => exact sorted_insertSorted a _ ih

theorem mem_sortedDedup {a : Nat} {l : List Nat} : a ∈ sortedDedup l ↔ a ∈ l := by
  induction l with
  | nil => simp [sortedDedup]
  | cons b l ih =>
    show a ∈ insertSorted b (sortedDedup l) ↔ _
    rw [mem_insertSorted, ih]
    simp

theorem detect_sorted (offs : List Nat) :
    List.Sorted (· < ·) (detect_section_boundaries offs) :=
  sorted_sortedDedup _

theorem detect_mem_zero (offs : List Nat) : 0 ∈ detect_section_boundaries offs :=
  mem_sortedDedup.2 (by simp)

theorem detect_eq_cons (offs : List Nat) :
    ∃ rest, detect_section_boundaries offs = 0 :: rest := by
  have h0 := detect_mem_zero offs
  have hs := detect_sorted offs
  cases hd : detect_section_boundaries offs with
  | nil => rw [hd] at h0; simp at h0
  | cons b rest =>
    rw [hd] at h0 hs
    rw [List.sorted_cons] at hs
    rcases List.mem_cons.1 h0 with rfl | h0
    · exact ⟨rest, rfl⟩
    · exact absurd (hs.1 0 h0) (by omega)

/-! ### Size invariant and empty-chunk behaviour of the packing loop -/

theorem pack_mem_size (g : Bool) (cs : Nat) (P : List (List Char)) :
    ∀ (paras : List (List Char)) (cur c : List Char),
    (∀ q ∈ paras, q ∈ P) →
    (cur.length ≤ cs + 1 ∨ ∃ p ∈ P, cur = p ++ nlnl ∧ cs ≤ p.length) →
    c ∈ pack g cs paras cur →
    c.length ≤ cs + 1 ∨ ∃ p ∈ P, c = p ++ nlnl ∧ cs ≤ p.length
  | [], cur, c, _, hcur, hc => by
    rw [pack] at hc
    by_cases h : cur = []
    · rw [if_pos h] at hc
      simp at hc
    · rw [if_neg h] at hc
      rcases List.mem_singleton.1 hc with rfl
      exact hcur
  | p :: ps, cur, c, hP, hcur, hc => by
    have hPp : p ∈ P := hP p (by simp)
    have hPps : ∀ q ∈ ps, q ∈ P := fun q hq => hP q (List.mem_cons_of_mem p hq)
    rw [pack] at hc
    by_cases h1 : cur.length + p.length < cs
    · rw [if_pos h1] at hc
      refine pack_mem_size g cs P ps _ c hPps ?_ hc
      left
      simp only [List.length_append, nlnl]
      simp
      omega
    · rw [if_neg h1] at hc
      have hnext : (p ++ nlnl).length ≤ cs + 1 ∨
          ∃ q ∈ P, p ++ nlnl = q ++ nlnl ∧ cs ≤ q.length := by
        by_cases hp : cs ≤ p.length
        · exact Or.inr ⟨p, hPp, rfl, hp⟩
        · left
          simp only [List.length_append, nlnl]
          simp
          omega
      by_cases h2 : g = true ∧ cur = []
      · rw [if_pos h2] at hc
        exact pack_mem_size g cs P ps _ c hPps hnext hc
      · rw [if_neg h2] at hc
        rcases List.mem_cons.1 hc with rfl | hc
        · exact hcur
        · exact pack_mem_size g cs P ps _ c hPps hnext hc

theorem not_nil_mem_pack (g : Bool) (cs : Nat) :
    ∀ (paras : List (List Char)) (cur : List Char), cur ≠ [] →
    [] ∉ pack g cs paras cur
  | [], cur, hcur => by
    rw [pack, if_neg hcur]
    intro hc
    exact hcur (List.mem_singleton.1 hc).symm
  | p :: ps, cur, hcur => by
    rw [pack]
    have hne : p ++ nlnl ≠ [] := by simp [nlnl]
    by_cases h1 : cur.length + p.length < cs
    · rw [if_pos h1]
      exact not_nil_mem_pack g cs ps _ (by simp [nlnl])
    · rw [if_neg h1]
      by_cases h2 : g = true ∧ cur = []
      · exact absurd h2.2 hcur
      · rw [if_neg h2]
        intro hc
        rcases List.mem_cons.1 hc with h | h
        · exact hcur h.symm
        · exact not_nil_mem_pack g cs ps _ hne h

/-- On the fallback path an empty chunk is emitted exactly when the first
paragraph alone already reaches the target size. -/
theorem nil_mem_pack_false_iff (cs : Nat) (p : List Char) (ps : List (List Char)) :
    [] ∈ pack false cs (p :: ps) [] ↔ cs ≤ p.length := by
  rw [pack]
  constructor
  · intro hc
    by_contra hp
    have h1 : ([] : List Char).length + p.length < cs := by simp; omega
    rw [if_pos h1] at hc
    exact not_nil_mem_pack false cs ps _ (by simp [nlnl]) hc
  · intro hp
    have h1 : ¬ (([] : List Char).length + p.length < cs) := by simp; omega
    rw [if_neg h1, if_neg (by simp)]
    exact List.mem_cons_self _ _

/-! ### The sorted fan-in of the map stage -/

theorem insertionSort_indexed {α : Type} (f : Nat → α) (order : List Nat) (n : Nat)
    (h : order.Perm (List.range n)) :
    List.insertionSort (fun a b => a.1 ≤ b.1) (order.map (fun i => (i, f i)))
      = (List.range n).map (fun i => (i, f i)) := by
  haveI htot : IsTotal (Nat × α) (fun a b => a.1 ≤ b.1) :=
    ⟨fun a b => Nat.le_total a.1 b.1⟩
  haveI htrans : IsTrans (Nat × α) (fun a b => a.1 ≤ b.1) :=
    ⟨fun _ _ _ hab hbc => Nat.le_trans hab hbc⟩
  haveI hanti : IsAntisymm (Nat × α) (fun a b => a.1 < b.1) :=
    ⟨fun a b hab hba => absurd hba (Nat.lt_asymm hab)⟩
  have hperm : List.Perm
      (List.insertionSort (fun a b => a.1 ≤ b.1) (order.map (fun i => (i, f i))))
      ((List.range n).map (fun i => (i, f i))) :=
    (List.perm_insertionSort _ _).trans (h.map _)
  have hfst : List.Perm
      ((List.insertionSort (fun a b => a.1 ≤ b.1)
          (order.map (fun i => (i, f i)))).map Prod.fst)
      (List.range n) := by
    have h1 : ((order.map (fun i => (i, f i))).map Prod.fst) = order := by
      rw [List.map_map]
      exact List.map_id'' (fun _ => rfl) order
    have h2 : List.Perm
        ((List.insertionSort (fun a b => a.1 ≤ b.1)
            (order.map (fun i => (i, f i)))).map Prod.fst)
        ((order.map (fun i => (i, f i))).map Prod.fst) :=
      (List.perm_insertionSort _ _).map _
    rw [h1] at h2
    exact h2.trans h
  have hnodup : (List.insertionSort (fun a b => a.1 ≤ b.1)
      (order.map (fun i => (i, f i)))).map Prod.fst |>.Nodup :=
    hfst.nodup_iff.2 (List.nodup_range n)
  refine List.eq_of_perm_of_sorted (r := fun a b : Nat × α => a.1 < b.1) hperm ?_ ?_
  · have hle : List.Sorted (fun a b : Nat × α => a.1 ≤ b.1)
        (List.insertionSort (fun a b => a.1 ≤ b.1) (order.map (fun i => (i, f i)))) :=
      List.sorted_insertionSort _ _
    have hne : (List.insertionSort (fun a b => a.1 ≤ b.1)
        (order.map (fun i => (i, f i)))).Pairwise (fun a b => a.1 ≠ b.1) :=
      List.pairwise_map.1 hnodup
    exact (hle.and hne).imp (fun hab => Nat.lt_of_le_of_ne hab.1 hab.2)
  · refine List.pairwise_map.2 ?_
    exact (List.pairwise_lt_range n).imp (fun hab => hab)

/-- With a completion order that is a permutation of the chunk indices, the
sort-by-index fan-in restores exactly the source-order outcomes. -/
theorem map_stage_eq (s : PDFSummarizer) (meta : Metadata) (is_financial : Bool)
    (chunks : List (List Char)) (order : List Nat)
    (h : order.Perm (List.range chunks.length)) :
    map_stage s meta is_financial chunks order
      = (List.range chunks.length).map
          (fun i => chunk_outcome s meta is_financial (chunks.getD i [])) := by
  unfold map_stage
  rw [insertionSort_indexed (fun i => chunk_outcome s meta is_financial (chunks.getD i []))
    order chunks.length h]
  rw [List.map_map]
  rfl

/-! ### Coverage of the source text by the emitted chunks -/

theorem sublist_flatten_resplit (cs : Nat) :
    ∀ L : List (List Char),
    L.flatten.Sublist ((L.map (fun c => (resplitChunk cs c).flatten)).flatten)
  | [] => by simp
  | c :: L => by
    simp only [List.flatten_cons, List.map_cons]
    refine List.Sublist.append ?_ (sublist_flatten_resplit cs L)
    rcases flatten_resplitChunk cs c with h | h
    · rw [h]
    · rw [h]
      exact List.sublist_append_left c nlnl

theorem detect_sorted_le (offs : List Nat) :
    List.Sorted (· ≤ ·) (detect_section_boundaries offs) :=
  List.Pairwise.imp (fun hab => Nat.le_of_lt hab) (detect_sorted offs)

theorem flatten_boundaryChunks_detect (offs : List Nat) (text : List Char) :
    (boundaryChunks text (detect_section_boundaries offs)).flatten = text := by
  obtain ⟨rest, hb⟩ := detect_eq_cons offs
  have hsorted : List.Sorted (· ≤ ·) (0 :: rest) := by
    have := detect_sorted_le offs
    rwa [hb] at this
  rw [hb, flatten_boundaryChunks text rest 0 hsorted, List.drop_zero]

theorem text_sublist_csc (s : PDFSummarizer) (offs : List Nat) (text : List Char) :
    text.Sublist (create_semantic_chunks s offs text).flatten := by
  unfold create_semantic_chunks
  by_cases hcond : 1 < (detect_section_boundaries offs).length ∧
      (detect_section_boundaries offs).length < 30
  · rw [if_pos hcond, List.flatten_flatten, List.map_map]
    have h2 := sublist_flatten_resplit s.chunk_size
      (boundaryChunks text (detect_section_boundaries offs))
    rw [flatten_boundaryChunks_detect offs text] at h2
    exact h2
  · rw [if_neg hcond, flatten_pack, flatten_map_sep]
    simp only [List.nil_append]
    exact List.sublist_append_left text nlnl

/-! ### Character conservation (no document character is duplicated) -/

theorem count_append_nlnl (ch : Char) (h : ch ≠ '\n') (l : List Char) :
    (l ++ nlnl).count ch = l.count ch := by
  have h0 : nlnl.count ch = 0 := List.count_eq_zero.2 (by simp [nlnl, h])
  rw [List.count_append, h0, Nat.add_zero]

theorem count_flatten_resplit (cs : Nat) (ch : Char) (h : ch ≠ '\n') :
    ∀ L : List (List Char),
    ((L.map (fun c => (resplitChunk cs c).flatten)).flatten).count ch
      = (L.flatten).count ch
  | [] => rfl
  | c :: L => by
    simp only [List.map_cons, List.flatten_cons, List.count_append]
    rw [count_flatten_resplit cs ch h L]
    rcases flatten_resplitChunk cs c with hc | hc
    · rw [hc]
    · rw [hc, count_append_nlnl ch h]

theorem count_csc (s : PDFSummarizer) (offs : List Nat) (text : List Char)
    (ch : Char) (h : ch ≠ '\n') :
    ((create_semantic_chunks s offs text).flatten).count ch = text.count ch := by
  unfold create_semantic_chunks
  by_cases hcond : 1 < (detect_section_boundaries offs).length ∧
      (detect_section_boundaries offs).length < 30
  · rw [if_pos hcond, List.flatten_flatten, List.map_map]
    have h2 := count_flatten_resplit s.chunk_size ch h
      (boundaryChunks text (detect_section_boundaries offs))
    rw [flatten_boundaryChunks_detect offs text] at h2
    exact h2
  · rw [if_neg hcond, flatten_pack, flatten_map_sep]
    simp only [List.nil_append]
    exact count_append_nlnl ch h text

/-! ### Claim theorems: segmentation and chunking -/

/-- Claim C8: detect_section_boundaries always returns a strictly increasing
(hence sorted and duplicate-free) list of non-negative offsets that contains
offset 0; every member is either 0 or one of the regex match offsets (so the
offsets point into the text); it never fails, and with no pattern match the
result is exactly the single offset 0. -/
theorem C8_boundary_list (offs : List Nat) :
    List.Sorted (· < ·) (detect_section_boundaries offs) ∧
    0 ∈ detect_section_boundaries offs ∧
    (∀ b ∈ detect_section_boundaries offs, b = 0 ∨ b ∈ offs) ∧
    (offs = [] → detect_section_boundaries offs = [0]) := by
  refine ⟨detect_sorted offs, detect_mem_zero offs, ?_, ?_⟩
  · intro b hb
    have hmem := mem_sortedDedup.1 hb
    simpa using hmem
  · rintro rfl
    rfl

/-- Claim C8 witness. -/
theorem C8_boundary_list_witness : detect_section_boundaries [] = [0] :=
  (C8_boundary_list []).2.2.2 rfl

/-- Claim C3: for every input text (regex match offsets abstracted by
`offs`), the emitted chunks cover every character of the source text in
left-to-right order on both the boundary path and the fallback path: the
source text is a subsequence of the concatenation of the chunks in emission
order (only blank-line separator characters are ever inserted). -/
theorem C3_chunk_coverage (s : PDFSummarizer) (offs : List Nat) (text : List Char) :
    text.Sublist (create_semantic_chunks s offs text).flatten :=
  text_sublist_csc s offs text

/-- Claim C5: the boundary path is taken exactly when the boundary count is
strictly between 1 and 30.  On it, the pre-re-split chunks are the spans
between consecutive boundaries (the last chunk running from the last boundary
to the end of the text) and the boundaries are strictly increasing; outside
the accepted range the fallback greedy paragraph packing over the whole text
is used instead. -/
theorem C5_path_selection (s : PDFSummarizer) (offs : List Nat) (text : List Char) :
    (1 < (detect_section_boundaries offs).length ∧
        (detect_section_boundaries offs).length < 30 →
      create_semantic_chunks s offs text =
        ((boundaryChunks text (detect_section_boundaries offs)).map
          (resplitChunk s.chunk_size)).flatten ∧
      List.Sorted (· < ·) (detect_section_boundaries offs) ∧
      (boundaryChunks text (detect_section_boundaries offs)).length =
        (detect_section_boundaries offs).length ∧
      (∀ i, i + 1 < (detect_section_boundaries offs).length →
        (boundaryChunks text (detect_section_boundaries offs)).getD i [] =
          pyslice ((detect_section_boundaries offs).getD i 0)
            ((detect_section_boundaries offs).getD (i + 1) 0) text) ∧
      (boundaryChunks text (detect_section_boundaries offs)).getD
          ((detect_section_boundaries offs).length - 1) [] =
        text.drop ((detect_section_boundaries offs).getD
          ((detect_section_boundaries offs).length - 1) 0)) ∧
    (¬ (1 < (detect_section_boundaries offs).length ∧
        (detect_section_boundaries offs).length < 30) →
      create_semantic_chunks s offs text =
        pack false s.chunk_size (splitOnBlank text) []) := by
  have hne : detect_section_boundaries offs ≠ [] :=
    List.ne_nil_of_mem (detect_mem_zero offs)
  constructor
  · intro hcond
    refine ⟨?_, detect_sorted offs, boundaryChunks_length text _ hne,
      fun i hi => boundaryChunks_getD text _ i hi,
      boundaryChunks_getD_last text _ hne⟩
    unfold create_semantic_chunks
    rw [if_pos hcond]
  · intro hcond
    unfold create_semantic_chunks
    rw [if_neg hcond]

/-- Claim C5 witness (fallback side, no boundary detected). -/
theorem C5_path_selection_witness :
    create_semantic_chunks ⟨fun _ => Except.ok [], 4, 200, 4⟩ [] ("ab").data =
      pack false 4 (splitOnBlank ("ab").data) [] :=
  (C5_path_selection ⟨fun _ => Except.ok [], 4, 200, 4⟩ [] ("ab").data).2 (by decide)

/-- Claim C4 as stated is false: with chunk_size 4 and the document
"abc\n\nxyzw\n1 Abcd" (whose only header-regex match starts at offset 9, the
decimal-outline pattern matching the final "\n1 Abcd"), the boundary path
re-splits the oversized chunk "abc\n\nxyzw" into the sub-chunk "abc\n\n" of
length 5 > 4 even though its only paragraph "abc" does not exceed the target
size: the greedy size check ignores the appended two-character separator. -/
theorem C4_counterexample :
    ¬ (∀ c ∈ create_semantic_chunks ⟨fun _ => Except.ok [], 4, 200, 4⟩ [9]
        ("abc\n\nxyzw\n1 Abcd").data,
      c.length ≤ 4 ∨ ∃ p ∈ splitOnBlank c, 4 < p.length) := by decide

/-- Claim C4 amended: each sub-chunk produced by re-splitting an oversized
boundary-path chunk has length at most chunk_size + 1 (one more than the
target, because every packed paragraph receives a two-character blank-line
separator the size check does not count) unless it consists of a single
paragraph of the re-split chunk — an element of its blank-line split — of
length at least chunk_size, together with its appended separator; and the
re-split output concatenates to the whole chunk plus one trailing separator,
so the last partially filled sub-chunk is always emitted. -/
theorem C4_amended_resplit_bound (cs : Nat) (chunk c : List Char)
    (hbig : 3 * cs < 2 * chunk.length) (hc : c ∈ resplitChunk cs chunk) :
    (c.length ≤ cs + 1 ∨
      ∃ p ∈ splitOnBlank chunk, c = p ++ nlnl ∧ cs ≤ p.length) ∧
    (resplitChunk cs chunk).flatten = chunk ++ nlnl := by
  refine ⟨?_, flatten_resplitChunk_of_big hbig⟩
  rw [resplitChunk, if_pos hbig] at hc
  exact pack_mem_size true cs (splitOnBlank chunk) (splitOnBlank chunk) [] c
    (fun q hq => hq) (Or.inl (by simp)) hc

/-- Claim C4 witness. -/
theorem C4_amended_resplit_bound_witness :
    ((("abc\n\n").data.length ≤ 4 + 1 ∨
        ∃ p ∈ splitOnBlank ("abc\n\nxyzw").data,
          ("abc\n\n").data = p ++ nlnl ∧ 4 ≤ p.length) ∧
      (resplitChunk 4 ("abc\n\nxyzw").data).flatten = ("abc\n\nxyzw").data ++ nlnl) :=
  C4_amended_resplit_bound 4 ("abc\n\nxyzw").data ("abc\n\n").data
    (by decide) (by decide)

/-- Claim C9 as stated is false: with chunk_size 4 the non-empty document
"abcd" (no boundary match) produces an empty-text chunk on the fallback path
(the first paragraph alone reaches the target size, and the fallback loop
appends the still-empty accumulator without the emptiness guard the re-split
loop has); moreover the empty document does not produce a single empty-text
chunk (it produces the single chunk consisting of the separator). -/
theorem C9_counterexample :
    [] ∈ create_semantic_chunks ⟨fun _ => Except.ok [], 4, 200, 4⟩ [] ("abcd").data ∧
    ("abcd").data ≠ [] ∧
    create_semantic_chunks ⟨fun _ => Except.ok [], 4, 200, 4⟩ [] [] ≠ [[]] := by
  decide

/-- Claim C9 amended: on the fallback path an empty-text chunk is emitted
exactly when the first paragraph alone reaches the target size, which can
happen for non-empty text; the empty document yields the single chunk
consisting of one blank-line separator (for positive chunk_size); and a
single paragraph at least as large as the target size is still emitted whole
as one chunk (preceded by one empty chunk and carrying a trailing separator)
rather than raising an error — no word-level splitting happens. -/
theorem C9_amended_empty_chunks (s : PDFSummarizer) (text : List Char) :
    (1 ≤ s.chunk_size → create_semantic_chunks s [] [] = [nlnl]) ∧
    (∀ p ps, splitOnBlank text = p :: ps →
      ([] ∈ create_semantic_chunks s [] text ↔ s.chunk_size ≤ p.length)) ∧
    (∀ p, splitOnBlank text = [p] → s.chunk_size ≤ p.length →
      create_semantic_chunks s [] text = [[], p ++ nlnl]) := by
  have hfall : ∀ t : List Char,
      create_semantic_chunks s [] t = pack false s.chunk_size (splitOnBlank t) [] := by
    intro t
    unfold create_semantic_chunks
    rw [if_neg (by decide)]
  refine ⟨?_, ?_, ?_⟩
  · intro hcs
    rw [hfall []]
    show pack false s.chunk_size [[]] [] = [nlnl]
    rw [pack, if_pos (by simpa using hcs), pack, if_neg (by simp [nlnl])]
    simp
  · intro p ps hsplit
    rw [hfall text, hsplit]
    exact nil_mem_pack_false_iff s.chunk_size p ps
  · intro p hsplit hcs
    rw [hfall text, hsplit, pack,
      if_neg (by simp; omega), if_neg (by simp), pack,
      if_neg (by simp [nlnl])]

/-- Claim C9 witness. -/
theorem C9_amended_empty_chunks_witness :
    create_semantic_chunks ⟨fun _ => Except.ok [], 4, 200, 4⟩ [] [] = [nlnl] :=
  (C9_amended_empty_chunks ⟨fun _ => Except.ok [], 4, 200, 4⟩ ("abcd").data).1
    (by decide)

/-- Indexing the canonical source-order outcome list. -/
theorem getD_range_map {α : Type} (f : Nat → α) (n i : Nat) (d : α) (hi : i < n) :
    ((List.range n).map f).getD i d = f i := by
  rw [List.getD_eq_getElem _ _ (by simpa using hi)]
  simp

/-! ### Claim theorems: the map-reduce pipeline -/

/-- Claim C1: when every chunk summarization completes (the completion order
is some permutation of the chunk indices) and summarize_pdf returns a record,
that record has chunk_count equal to the number of chunks produced by
create_semantic_chunks, section_summaries has exactly chunk_count entries,
and the i-th entry is the summary-or-error-placeholder outcome of the i-th
chunk in source order — regardless of the completion order. -/
theorem C1_index_fidelity (s : PDFSummarizer) (text : List Char) (meta : Metadata)
    (is_financial : Bool) (offs order : List Nat) (r : SummaryResult)
    (hperm : order.Perm (List.range (create_semantic_chunks s offs text).length))
    (hok : summarize_pdf s text meta is_financial offs order = .ok r) :
    r.chunk_count = (create_semantic_chunks s offs text).length ∧
    r.section_summaries.length = (create_semantic_chunks s offs text).length ∧
    (∀ i, i < (create_semantic_chunks s offs text).length →
      r.section_summaries.getD i [] =
        chunk_outcome s meta is_financial
          ((create_semantic_chunks s offs text).getD i [])) := by
  unfold summarize_pdf at hok
  rw [map_stage_eq s meta is_financial _ order hperm] at hok
  cases hred : summarize_summaries s
      ((List.range (create_semantic_chunks s offs text).length).map
        (fun i => chunk_outcome s meta is_financial
          ((create_semantic_chunks s offs text).getD i []))) meta is_financial with
  | error e =>
    rw [hred] at hok
    exact absurd hok (by simp [Except.map])
  | ok fin =>
    rw [hred] at hok
    have hr : r = ⟨meta, (create_semantic_chunks s offs text).length,
        (List.range (create_semantic_chunks s offs text).length).map
          (fun i => chunk_outcome s meta is_financial
            ((create_semantic_chunks s offs text).getD i [])), fin⟩ := by
      have := hok.symm
      simpa [Except.map] using this
    subst hr
    refine ⟨rfl, by simp, ?_⟩
    intro i hi
    exact getD_range_map _ _ i [] hi

/-- Claim C1 witness: a two-chunk document completed out of order. -/
theorem C1_index_fidelity_witness :
    ((⟨⟨("T").data, ("A").data, [], [], [], [], 1⟩, 2,
        [("S").data, ("S").data], ("S").data⟩ : SummaryResult).chunk_count =
      (create_semantic_chunks ⟨fun _ => Except.ok ("S").data, 4, 200, 4⟩ []
        ("ab\n\ncd").data).length ∧
    (⟨⟨("T").data, ("A").data, [], [], [], [], 1⟩, 2,
        [("S").data, ("S").data], ("S").data⟩ : SummaryResult).section_summaries.length =
      (create_semantic_chunks ⟨fun _ => Except.ok ("S").data, 4, 200, 4⟩ []
        ("ab\n\ncd").data).length ∧
    (∀ i, i < (create_semantic_chunks ⟨fun _ => Except.ok ("S").data, 4, 200, 4⟩ []
        ("ab\n\ncd").data).length →
      (⟨⟨("T").data, ("A").data, [], [], [], [], 1⟩, 2,
          [("S").data, ("S").data], ("S").data⟩ : SummaryResult).section_summaries.getD i [] =
        chunk_outcome ⟨fun _ => Except.ok ("S").data, 4, 200, 4⟩
          ⟨("T").data, ("A").data, [], [], [], [], 1⟩ true
          ((create_semantic_chunks ⟨fun _ => Except.ok ("S").data, 4, 200, 4⟩ []
            ("ab\n\ncd").data).getD i []))) :=
  C1_index_fidelity ⟨fun _ => Except.ok ("S").data, 4, 200, 4⟩ ("ab\n\ncd").data
    ⟨("T").data, ("A").data, [], [], [], [], 1⟩ true [] [1, 0]
    ⟨⟨("T").data, ("A").data, [], [], [], [], 1⟩, 2,
      [("S").data, ("S").data], ("S").data⟩
    (by decide) rfl

/-- Claim C2: if the capability fails for exactly one chunk index k among the
N chunks while every other chunk succeeds, summarize_pdf still assembles the
full list of N per-chunk outcomes: entry k is the descriptive error
placeholder containing the error, every other entry is its normal summary,
the failure does not escape the map stage, and the reduce stage
(summarize_summaries) is still invoked over all N entries. -/
theorem C2_single_chunk_failure (s : PDFSummarizer) (text : List Char)
    (meta : Metadata) (is_financial : Bool) (offs order : List Nat)
    (k : Nat) (err : List Char)
    (hperm : order.Perm (List.range (create_semantic_chunks s offs text).length))
    (hk : k < (create_semantic_chunks s offs text).length)
    (hfail : summarize_chunk s ((create_semantic_chunks s offs text).getD k [])
      meta is_financial = .error err)
    (hsucc : ∀ i, i < (create_semantic_chunks s offs text).length → i ≠ k →
      ∃ out, summarize_chunk s ((create_semantic_chunks s offs text).getD i [])
        meta is_financial = .ok out) :
    ∃ summaries : List (List Char),
      summaries.length = (create_semantic_chunks s offs text).length ∧
      summaries.getD k [] = error_placeholder err ∧
      (∀ i, i < (create_semantic_chunks s offs text).length → i ≠ k →
        summarize_chunk s ((create_semantic_chunks s offs text).getD i [])
          meta is_financial = .ok (summaries.getD i [])) ∧
      summarize_pdf s text meta is_financial offs order =
        (summarize_summaries s summaries meta is_financial).map
          (fun fin => ⟨meta, (create_semantic_chunks s offs text).length,
            summaries, fin⟩) := by
  refine ⟨(List.range (create_semantic_chunks s offs text).length).map
    (fun i => chunk_outcome s meta is_financial
      ((create_semantic_chunks s offs text).getD i [])), by simp, ?_, ?_, ?_⟩
  · rw [getD_range_map _ _ k [] hk]
    unfold chunk_outcome
    rw [hfail]
  · intro i hi hik
    obtain ⟨out, hout⟩ := hsucc i hi hik
    rw [getD_range_map _ _ i [] hi]
    unfold chunk_outcome
    rw [hout]
  · unfold summarize_pdf
    rw [map_stage_eq s meta is_financial _ order hperm]

/-- Claim C2 witness: one chunk among one fails; the reduce stage still runs
over the single placeholder entry. -/
theorem C2_single_chunk_failure_witness :
    ∃ summaries : List (List Char),
      summaries.length = (create_semantic_chunks
        ⟨fun _ => Except.error ("boom").data, 10, 200, 4⟩ [] ("ab").data).length ∧
      summaries.getD 0 [] = error_placeholder ("boom").data ∧
      (∀ i, i < (create_semantic_chunks
          ⟨fun _ => Except.error ("boom").data, 10, 200, 4⟩ [] ("ab").data).length →
        i ≠ 0 →
        summarize_chunk ⟨fun _ => Except.error ("boom").data, 10, 200, 4⟩
          ((create_semantic_chunks ⟨fun _ => Except.error ("boom").data, 10, 200, 4⟩
            [] ("ab").data).getD i [])
          ⟨("T").data, ("A").data, [], [], [], [], 1⟩ true = .ok (summaries.getD i [])) ∧
      summarize_pdf ⟨fun _ => Except.error ("boom").data, 10, 200, 4⟩ ("ab").data
          ⟨("T").data, ("A").data, [], [], [], [], 1⟩ true [] [0] =
        (summarize_summaries ⟨fun _ => Except.error ("boom").data, 10, 200, 4⟩
            summaries ⟨("T").data, ("A").data, [], [], [], [], 1⟩ true).map
          (fun fin => ⟨⟨("T").data, ("A").data, [], [], [], [], 1⟩,
            (create_semantic_chunks ⟨fun _ => Except.error ("boom").data, 10, 200, 4⟩
              [] ("ab").data).length, summaries, fin⟩) :=
  C2_single_chunk_failure ⟨fun _ => Except.error ("boom").data, 10, 200, 4⟩
    ("ab").data ⟨("T").data, ("A").data, [], [], [], [], 1⟩ true [] [0] 0
    ("boom").data (by decide) (by decide) rfl
    (fun i hi hik => by
      have hlen : (create_semantic_chunks
          ⟨fun _ => Except.error ("boom").data, 10, 200, 4⟩ [] ("ab").data).length = 1 :=
        by decide
      rw [hlen] at hi
      exact absurd (by omega) hik)

/-- Claim C6: if the capability raises during the final combining call of the
reduce stage, that error propagates out of summarize_pdf and no result record
is produced. -/
theorem C6_reduce_failure_propagates (s : PDFSummarizer) (text : List Char)
    (meta : Metadata) (is_financial : Bool) (offs order : List Nat) (e : List Char)
    (hfail : summarize_summaries s
      (map_stage s meta is_financial (create_semantic_chunks s offs text) order)
      meta is_financial = .error e) :
    summarize_pdf s text meta is_financial offs order = .error e := by
  unfold summarize_pdf
  rw [hfail]
  rfl

/-- Claim C6 witness. -/
theorem C6_reduce_failure_propagates_witness :
    summarize_pdf ⟨fun _ => Except.error ("boom").data, 10, 200, 4⟩ ("ab").data
      ⟨("T").data, ("A").data, [], [], [], [], 1⟩ true [] [0] =
      .error ("boom").data :=
  C6_reduce_failure_propagates ⟨fun _ => Except.error ("boom").data, 10, 200, 4⟩
    ("ab").data ⟨("T").data, ("A").data, [], [], [], [], 1⟩ true [] [0]
    ("boom").data rfl

/-- Claim C7: with the same text, metadata and deterministic capability, any
two runs — with possibly different max_workers and different (hence
arbitrary) completion orders of the concurrently summarized chunks — return
identical results: same section_summaries content and order, same
final_summary.  Scheduling and pool size do not affect the output. -/
theorem C7_determinism_under_scheduling (s₁ s₂ : PDFSummarizer) (text : List Char)
    (meta : Metadata) (is_financial : Bool) (offs order₁ order₂ : List Nat)
    (hllm : s₁.llm_api = s₂.llm_api) (hcs : s₁.chunk_size = s₂.chunk_size)
    (_hov : s₁.overlap = s₂.overlap)
    (h₁ : order₁.Perm (List.range (create_semantic_chunks s₁ offs text).length))
    (h₂ : order₂.Perm (List.range (create_semantic_chunks s₂ offs text).length)) :
    summarize_pdf s₁ text meta is_financial offs order₁ =
      summarize_pdf s₂ text meta is_financial offs order₂ := by
  have hc : create_semantic_chunks s₁ offs text = create_semantic_chunks s₂ offs text := by
    unfold create_semantic_chunks
    rw [hcs]
  have hout : chunk_outcome s₁ = chunk_outcome s₂ := by
    funext m b c
    unfold chunk_outcome summarize_chunk
    rw [hllm]
  have hsum : summarize_summaries s₁ = summarize_summaries s₂ := by
    funext a m b
    unfold summarize_summaries
    rw [hllm]
  unfold summarize_pdf
  rw [map_stage_eq s₁ meta is_financial _ order₁ h₁,
    map_stage_eq s₂ meta is_financial _ order₂ h₂, hc, hout, hsum]

/-- Claim C7 witness: pool sizes 1 and 2, completion orders in source order
and reversed, on a two-chunk document. -/
theorem C7_determinism_under_scheduling_witness :
    summarize_pdf ⟨fun _ => Except.ok ("S").data, 4, 200, 1⟩ ("ab\n\ncd").data
        ⟨("T").data, ("A").data, [], [], [], [], 1⟩ true [] [0, 1] =
      summarize_pdf ⟨fun _ => Except.ok ("S").data, 4, 200, 2⟩ ("ab\n\ncd").data
        ⟨("T").data, ("A").data, [], [], [], [], 1⟩ true [] [1, 0] :=
  C7_determinism_under_scheduling ⟨fun _ => Except.ok ("S").data, 4, 200, 1⟩
    ⟨fun _ => Except.ok ("S").data, 4, 200, 2⟩ ("ab\n\ncd").data
    ⟨("T").data, ("A").data, [], [], [], [], 1⟩ true [] [0, 1] [1, 0]
    rfl rfl rfl (by decide) (by decide)

/-- Claim C10: the stored overlap value is never read: two summarizers that
differ only in overlap produce identical chunkings and identical
summarize_pdf results; moreover the emitted chunks never share (or drop)
document characters — every non-separator character occurs in the
concatenated chunks exactly as often as in the document, and the document is
a subsequence of that concatenation. -/
theorem C10_overlap_unused (s₁ s₂ : PDFSummarizer) (text : List Char)
    (meta : Metadata) (is_financial : Bool) (offs order : List Nat)
    (hllm : s₁.llm_api = s₂.llm_api) (hcs : s₁.chunk_size = s₂.chunk_size)
    (_hmw : s₁.max_workers = s₂.max_workers) :
    create_semantic_chunks s₁ offs text = create_semantic_chunks s₂ offs text ∧
    summarize_pdf s₁ text meta is_financial offs order =
      summarize_pdf s₂ text meta is_financial offs order ∧
    (∀ ch, ch ≠ '\n' →
      ((create_semantic_chunks s₁ offs text).flatten).count ch = text.count ch) ∧
    text.Sublist (create_semantic_chunks s₁ offs text).flatten := by
  have hc : create_semantic_chunks s₁ offs text = create_semantic_chunks s₂ offs text := by
    unfold create_semantic_chunks
    rw [hcs]
  have hout : chunk_outcome s₁ = chunk_outcome s₂ := by
    funext m b c
    unfold chunk_outcome summarize_chunk
    rw [hllm]
  have hsum : summarize_summaries s₁ = summarize_summaries s₂ := by
    funext a m b
    unfold summarize_summaries
    rw [hllm]
  refine ⟨hc, ?_, fun ch hch => count_csc s₁ offs text ch hch,
    text_sublist_csc s₁ offs text⟩
  unfold summarize_pdf map_stage
  rw [hc, hout, hsum]

/-- Claim C10 witness: overlap 0 versus overlap 200. -/
theorem C10_overlap_unused_witness :
    create_semantic_chunks ⟨fun _ => Except.ok ("S").data, 4, 0, 4⟩ [] ("ab\n\ncd").data =
      create_semantic_chunks ⟨fun _ => Except.ok ("S").data, 4, 200, 4⟩ [] ("ab\n\ncd").data ∧
    summarize_pdf ⟨fun _ => Except.ok ("S").data, 4, 0, 4⟩ ("ab\n\ncd").data
        ⟨("T").data, ("A").data, [], [], [], [], 1⟩ true [] [0, 1] =
      summarize_pdf ⟨fun _ => Except.ok ("S").data, 4, 200, 4⟩ ("ab\n\ncd").data
        ⟨("T").data, ("A").data, [], [], [], [], 1⟩ true [] [0, 1] ∧
    (∀ ch, ch ≠ '\n' →
      ((create_semantic_chunks ⟨fun _ => Except.ok ("S").data, 4, 0, 4⟩ []
        ("ab\n\ncd").data).flatten).count ch = ("ab\n\ncd").data.count ch) ∧
    ("ab\n\ncd").data.Sublist
      (create_semantic_chunks ⟨fun _ => Except.ok ("S").data, 4, 0, 4⟩ []
        ("ab\n\ncd").data).flatten :=
  C10_overlap_unused ⟨fun _ => Except.ok ("S").data, 4, 0, 4⟩
    ⟨fun _ => Except.ok ("S").data, 4, 200, 4⟩ ("ab\n\ncd").data
    ⟨("T").data, ("A").data, [], [], [], [], 1⟩ true [] [0, 1] rfl rfl rfl

end PDFSum
